import Mathlib

/-!
Verification development for the spin mutex of `src/src/atomic.rs`.

The source defines `Mutex<T> { value: UnsafeCell<T>, locked: AtomicBool }`
with `new` (atomic.rs:30-35) and `with_lock` (atomic.rs:37-70).  `with_lock`
loops on `compare_exchange(UNLOCKED, LOCKED, Relaxed, Relaxed)`; on failure it
spins in a load-only loop `while locked.load(Relaxed) == LOCKED {}` before
re-attempting the exchange; once the exchange succeeds it runs the closure on
a mutable reference to the payload and then stores `UNLOCKED` (Relaxed).

Two embeddings are developed, both read off the source:
* a sequential (no-interference) model of a single `with_lock` call, and
* a labeled transition system over true interleavings of any number of
  threads, each running the loop of the source's `test_mutex`
  (`for _ in 0..N { m.with_lock(|l| *l += 1) }`), with every atomic access
  of the source (the exchange, the spin load, the payload read/write, the
  releasing store) as one atomic step.  The interleaving model is
  sequentially consistent: the Relaxed orderings the source actually passes
  are recorded separately as data (`casSuccessOrdering` etc.).
-/

namespace SpinAtomic

/-- `std::sync::atomic::Ordering` (ordering.rs:4-11). -/
inductive MemOrdering : Type where
  | Relaxed
  | Release
  | Acquire
  | AcqRel
  | SeqCst
  deriving DecidableEq

/-- atomic.rs:19 `const LOCKED: bool = true`. -/
def LOCKED : Bool := true

/-- atomic.rs:20 `const UNLOCKED: bool = false`. -/
def UNLOCKED : Bool := false

/-- Success ordering of the `compare_exchange` at atomic.rs:46. -/
def casSuccessOrdering : MemOrdering := MemOrdering.Relaxed

/-- Failure ordering of the `compare_exchange` at atomic.rs:46. -/
def casFailureOrdering : MemOrdering := MemOrdering.Relaxed

/-- Ordering of the spin load at atomic.rs:51. -/
def spinLoadOrdering : MemOrdering := MemOrdering.Relaxed

/-- Ordering of the releasing `store(UNLOCKED, ..)` at atomic.rs:68. -/
def unlockStoreOrdering : MemOrdering := MemOrdering.Relaxed

/-- Orderings at least as strong as Acquire on the load side. -/
def atLeastAcquire : MemOrdering → Bool
  | MemOrdering.Acquire => true
  | MemOrdering.AcqRel => true
  | MemOrdering.SeqCst => true
  | _ => false

/-- Orderings at least as strong as Release on the store side. -/
def atLeastRelease : MemOrdering → Bool
  | MemOrdering.Release => true
  | MemOrdering.AcqRel => true
  | MemOrdering.SeqCst => true
  | _ => false

/-- `AtomicBool::compare_exchange(expected, desired, ..)` on a flag currently
holding `current`: it stores `desired` only if `current = expected`, and
reports `Ok(previous)` or `Err(current)`.  The result is the pair
(new stored value, report). -/
def compareExchange (current expected desired : Bool) : Bool × Except Bool Bool :=
  if current = expected then (desired, Except.ok current)
  else (current, Except.error current)

/-- The mutex state of atomic.rs:22-25: the payload of `UnsafeCell<T>` and the
`AtomicBool` flag. -/
structure Mutex (T : Type) : Type where
  value : T
  locked : Bool

/-- `Mutex::new` (atomic.rs:30-35): wraps the value, flag `UNLOCKED`. -/
def Mutex.new {T : Type} (value : T) : Mutex T :=
  { value := value, locked := UNLOCKED }

/-- One `with_lock` call (atomic.rs:37-70) run by a single thread with no
interference, the closure returning the new payload and a result.  The
compare-exchange of atomic.rs:44-48 sees the current flag; if it fails, the
load-only spin loop of atomic.rs:51 re-reads a flag no other thread will ever
change, so the call never returns (`none`).  On success the closure runs on
the payload (atomic.rs:67) and `UNLOCKED` is stored back (atomic.rs:68). -/
def Mutex.withLock {T R : Type} (m : Mutex T) (f : T → T × R) :
    Option (Mutex T × R) :=
  match compareExchange m.locked UNLOCKED LOCKED with
  | (_, Except.ok _) =>
      some (Mutex.mk (f m.value).1 UNLOCKED, (f m.value).2)
  | (_, Except.error _) => none

/-- A sequence of sequential `with_lock` calls, threading the mutex. -/
def runCalls {T R : Type} (m : Mutex T) : List (T → T × R) → Option (Mutex T × List R)
  | [] => some (m, [])
  | f :: fs =>
      match m.withLock f with
      | some (m1, r) =>
          match runCalls m1 fs with
          | some (m2, rs) => some (m2, r :: rs)
          | none => none
      | none => none

/-- The same closures applied directly to the bare value. -/
def runDirect {T R : Type} (v : T) : List (T → T × R) → T × List R
  | [] => (v, [])
  | f :: fs => ((runDirect (f v).1 fs).1, (f v).2 :: (runDirect (f v).1 fs).2)

theorem withLock_unlocked {T R : Type} (m : Mutex T) (f : T → T × R)
    (h : m.locked = UNLOCKED) :
    m.withLock f = some (Mutex.mk (f m.value).1 UNLOCKED, (f m.value).2) := by
  simp [Mutex.withLock, compareExchange, h]

theorem runCalls_eq {T R : Type} (fs : List (T → T × R)) (m : Mutex T)
    (h : m.locked = UNLOCKED) :
    runCalls m fs =
      some (Mutex.mk (runDirect m.value fs).1 UNLOCKED, (runDirect m.value fs).2) := by
  induction fs generalizing m with
  | nil =>
      obtain ⟨v, l⟩ := m
      simp only [UNLOCKED] at h
      subst h
      rfl
  | cons f fs ih =>
      simp only [runCalls, withLock_unlocked m f h,
        ih (Mutex.mk (f m.value).1 UNLOCKED) rfl]
      rfl

/-- Claim C4: construction `new(value)` always succeeds (it is a total
function), takes ownership of the value, stores it unchanged as the payload,
and initializes the lock flag to `UNLOCKED`. -/
theorem new_stores_value_and_unlocked (T : Type) (v : T) :
    (Mutex.new v).value = v ∧ (Mutex.new v).locked = UNLOCKED :=
  ⟨rfl, rfl⟩

/-- Claim C2, counterexample: it is false that the implementation uses an
ordering at least as strong as Acquire on the successful compare-exchange and
at least as strong as Release on the releasing store; both are `Relaxed`
(atomic.rs:46 and atomic.rs:68). -/
theorem orderings_not_acquire_release :
    ¬ (atLeastAcquire casSuccessOrdering = true ∧
        atLeastRelease unlockStoreOrdering = true) := by
  decide

/-- Claim C2, amended: the implementation is relaxed-only — the
compare-exchange that takes the lock uses `Relaxed` for both its success and
failure orderings, the spin load uses `Relaxed`, and the releasing store uses
`Relaxed`; in particular the success ordering is not at least Acquire and the
store ordering is not at least Release. -/
theorem withLock_orderings_relaxed_only :
    casSuccessOrdering = MemOrdering.Relaxed ∧
    casFailureOrdering = MemOrdering.Relaxed ∧
    spinLoadOrdering = MemOrdering.Relaxed ∧
    unlockStoreOrdering = MemOrdering.Relaxed ∧
    atLeastAcquire casSuccessOrdering = false ∧
    atLeastRelease unlockStoreOrdering = false := by
  decide

/-- Claim C3: a sequential `with_lock(f)` call on an `UNLOCKED` mutex returns
exactly `f`'s result, leaves as payload exactly the value `f` produced, and
leaves the flag `UNLOCKED`; consequently any sequence of such calls behaves
identically to applying the closures directly to the bare value, and ends
with the flag `UNLOCKED`. -/
theorem withLock_sequential (T R : Type) (m : Mutex T) (f : T → T × R)
    (fs : List (T → T × R)) (h : m.locked = UNLOCKED) :
    m.withLock f = some (Mutex.mk (f m.value).1 UNLOCKED, (f m.value).2) ∧
    runCalls m fs =
      some (Mutex.mk (runDirect m.value fs).1 UNLOCKED, (runDirect m.value fs).2) :=
  ⟨withLock_unlocked m f h, runCalls_eq fs m h⟩

/-- Claim C3, witness: on the mutex `⟨5, UNLOCKED⟩` with the closure
`v ↦ (v + 1, v * 2)`, a single call and the two-call sequence evaluate as the
theorem states. -/
theorem withLock_sequential_witness :
    (Mutex.mk (5 : Nat) UNLOCKED).withLock (fun v => (v + 1, v * 2)) =
      some (Mutex.mk 6 UNLOCKED, 10) ∧
    runCalls (Mutex.mk (5 : Nat) UNLOCKED)
        [fun v => (v + 1, v * 2), fun v => (v + 1, v * 2)] =
      some (Mutex.mk 7 UNLOCKED, [10, 12]) := by
  have h := withLock_sequential Nat Nat (Mutex.mk 5 UNLOCKED)
    (fun v => (v + 1, v * 2)) [fun v => (v + 1, v * 2), fun v => (v + 1, v * 2)] rfl
  exact ⟨h.1, h.2⟩

/-!
The interleaving model.  Each thread runs the loop of `test_mutex`
(atomic.rs:78-86): `for _ in 0..N { m.with_lock(f) }` with a closure mutating
the `Nat` payload.  A thread-local program counter follows the control points
of `with_lock`:

* `ready`  — about to attempt the compare-exchange (atomic.rs:44);
* `spin`   — inside the load-only spin loop (atomic.rs:51);
* `crit0`  — exchange succeeded, about to read the payload (atomic.rs:67);
* `crit1 l`— read the payload value `l`, about to write the closure's result;
* `rel`    — payload written, about to store `UNLOCKED` (atomic.rs:68).

`rem` counts the iterations of the `for` loop not yet completed (the one in
flight included); a thread at `ready` with `rem = 0` has returned.
-/

/-- Control points of `with_lock` for one thread. -/
inductive TPC : Type where
  | ready
  | spin
  | crit0
  | crit1 (l : Nat)
  | rel
  deriving DecidableEq

/-- One thread: its control point and its remaining loop iterations. -/
structure TState : Type where
  pc : TPC
  rem : Nat
  deriving DecidableEq

/-- The shared state for `k` threads: the atomic flag, the payload of the
`UnsafeCell`, and every thread's local state. -/
structure Config (k : Nat) : Type where
  flag : Bool
  payload : Nat
  threads : Fin k → TState

theorem Config.ext_of {k : Nat} {c c' : Config k} (hf : c.flag = c'.flag)
    (hp : c.payload = c'.payload) (ht : ∀ i, c.threads i = c'.threads i) :
    c = c' := by
  obtain ⟨f1, p1, t1⟩ := c
  obtain ⟨f2, p2, t2⟩ := c'
  simp only at hf hp ht
  subst hf; subst hp
  have : t1 = t2 := funext ht
  subst this
  rfl

/-- The atomic accesses of `with_lock`, each tagged with the acting thread:
the compare-exchange (with its outcome), the spin-loop load (with the value
observed), the payload read and write inside the critical section, and the
releasing store. -/
inductive Label (k : Nat) : Type where
  | cas (i : Fin k) (success : Bool)
  | load (i : Fin k) (observed : Bool)
  | readP (i : Fin k)
  | writeP (i : Fin k)
  | unlock (i : Fin k)
  deriving DecidableEq

/-- The thread performing a labeled step. -/
def Label.tid {k : Nat} : Label k → Fin k
  | Label.cas i _ => i
  | Label.load i _ => i
  | Label.readP i => i
  | Label.writeP i => i
  | Label.unlock i => i

/-- Is the label a compare-exchange attempt? -/
def Label.isCas {k : Nat} : Label k → Bool
  | Label.cas _ _ => true
  | _ => false

/-- Is the label an iteration of the load-only spin loop? -/
def Label.isSpinLoad {k : Nat} : Label k → Bool
  | Label.load _ _ => true
  | _ => false

/-- One interleaved step of the system, `f` being the payload transformation
the closure performs (`|l| *l += 1` is `f = fun v => v + 1`).  Each
constructor is one atomic access of `with_lock`. -/
inductive Step (f : Nat → Nat) {k : Nat} : Label k → Config k → Config k → Prop where
  | casOk (c : Config k) (i : Fin k) (r : Nat)
      (hpc : c.threads i = TState.mk TPC.ready (r + 1)) (hflag : c.flag = UNLOCKED) :
      Step f (Label.cas i true) c
        (Config.mk LOCKED c.payload (Function.update c.threads i (TState.mk TPC.crit0 (r + 1))))
  | casFail (c : Config k) (i : Fin k) (r : Nat)
      (hpc : c.threads i = TState.mk TPC.ready (r + 1)) (hflag : c.flag = LOCKED) :
      Step f (Label.cas i false) c
        (Config.mk c.flag c.payload (Function.update c.threads i (TState.mk TPC.spin (r + 1))))
  | loadLocked (c : Config k) (i : Fin k) (r : Nat)
      (hpc : c.threads i = TState.mk TPC.spin r) (hflag : c.flag = LOCKED) :
      Step f (Label.load i LOCKED) c c
  | loadUnlocked (c : Config k) (i : Fin k) (r : Nat)
      (hpc : c.threads i = TState.mk TPC.spin r) (hflag : c.flag = UNLOCKED) :
      Step f (Label.load i UNLOCKED) c
        (Config.mk c.flag c.payload (Function.update c.threads i (TState.mk TPC.ready r)))
  | readPayload (c : Config k) (i : Fin k) (r : Nat)
      (hpc : c.threads i = TState.mk TPC.crit0 r) :
      Step f (Label.readP i) c
        (Config.mk c.flag c.payload
          (Function.update c.threads i (TState.mk (TPC.crit1 c.payload) r)))
  | writePayload (c : Config k) (i : Fin k) (r : Nat) (l : Nat)
      (hpc : c.threads i = TState.mk (TPC.crit1 l) r) :
      Step f (Label.writeP i) c
        (Config.mk c.flag (f l) (Function.update c.threads i (TState.mk TPC.rel r)))
  | unlockStore (c : Config k) (i : Fin k) (r : Nat)
      (hpc : c.threads i = TState.mk TPC.rel (r + 1)) :
      Step f (Label.unlock i) c
        (Config.mk UNLOCKED c.payload (Function.update c.threads i (TState.mk TPC.ready r)))

/-- Any interleaved execution. -/
def Steps (f : Nat → Nat) {k : Nat} : Config k → Config k → Prop :=
  Relation.ReflTransGen (fun c c' => ∃ lbl : Label k, Step f lbl c c')

/-- Steps taken by thread `i` only. -/
def StepBy (f : Nat → Nat) {k : Nat} (i : Fin k) (c c' : Config k) : Prop :=
  ∃ lbl : Label k, Step f lbl c c' ∧ lbl.tid = i

/-- Steps taken by any thread other than `p`. -/
def StepNotBy (f : Nat → Nat) {k : Nat} (p : Fin k) (c c' : Config k) : Prop :=
  ∃ lbl : Label k, Step f lbl c c' ∧ lbl.tid ≠ p

/-- The initial configuration: payload `v0`, flag `UNLOCKED` (the mutex of
`Mutex::new`), every thread `i` with `total i` iterations ahead of it. -/
def initConfig {k : Nat} (v0 : Nat) (total : Fin k → Nat) : Config k :=
  Config.mk UNLOCKED v0 (fun i => TState.mk TPC.ready (total i))

/-- Does this control point hold the lock (is past a successful exchange and
before the releasing store)? -/
def TPC.holds : TPC → Bool
  | TPC.crit0 => true
  | TPC.crit1 _ => true
  | TPC.rel => true
  | _ => false

/-- How many closure applications of thread with `total` iterations have been
written to the payload: completed iterations, plus the in-flight one once its
write has landed (control point `rel`). -/
def TState.doneOps (total : Nat) (t : TState) : Nat :=
  (total - t.rem) + (if t.pc = TPC.rel then 1 else 0)

/-- The inductive invariant of the lock protocol, for closure `f`, initial
payload `v0` and iteration counts `total`. -/
structure Inv (f : Nat → Nat) {k : Nat} (v0 : Nat) (total : Fin k → Nat)
    (c : Config k) : Prop where
  excl : ∀ i j : Fin k, ((c.threads i).pc.holds = true) →
    ((c.threads j).pc.holds = true) → i = j
  flagIff : c.flag = true ↔ ∃ i : Fin k, (c.threads i).pc.holds = true
  remLe : ∀ i : Fin k, (c.threads i).rem ≤ total i
  remPos : ∀ i : Fin k, (c.threads i).pc ≠ TPC.ready → 1 ≤ (c.threads i).rem
  acct : c.payload =
    f^[∑ i : Fin k, TState.doneOps (total i) (c.threads i)] v0
  readVal : ∀ (i : Fin k) (l : Nat), (c.threads i).pc = TPC.crit1 l → l = c.payload

theorem inv_init (f : Nat → Nat) {k : Nat} (v0 : Nat) (total : Fin k → Nat) :
    Inv f v0 total (initConfig v0 total) := by
  refine ⟨?_, ?_, ?_, ?_, ?_, ?_⟩
  · intro i j hi _
    simp [initConfig, TPC.holds] at hi
  · constructor
    · intro h
      simp [initConfig, UNLOCKED] at h
    · rintro ⟨i, hi⟩
      simp [initConfig, TPC.holds] at hi
  · intro i; simp [initConfig]
  · intro i hi; simp [initConfig] at hi
  · have : (∑ i : Fin k, TState.doneOps (total i) ((initConfig v0 total).threads i)) = 0 := by
      refine Finset.sum_eq_zero ?_
      intro i _
      simp [initConfig, TState.doneOps]
    rw [this]
    rfl
  · intro i l hi
    simp [initConfig] at hi

theorem doneOps_update {k : Nat} (total : Fin k → Nat) (thr : Fin k → TState)
    (j : Fin k) (t : TState) :
    (fun i => TState.doneOps (total i) (Function.update thr j t i)) =
      Function.update (fun i => TState.doneOps (total i) (thr i)) j
        (TState.doneOps (total j) t) := by
  funext i
  by_cases hij : i = j
  · subst hij
    simp [Function.update]
  · simp [Function.update, hij]

theorem sum_update_of_eq {k : Nat} (G : Fin k → Nat) (j : Fin k) (x : Nat)
    (h : x = G j) :
    (∑ i : Fin k, Function.update G j x i) = ∑ i : Fin k, G i := by
  subst h
  simp only [Function.update_eq_self]

theorem sum_update_succ {k : Nat} (G : Fin k → Nat) (j : Fin k) (x : Nat)
    (h : x = G j + 1) :
    (∑ i : Fin k, Function.update G j x i) = (∑ i : Fin k, G i) + 1 := by
  subst h
  have h1 := Finset.sum_update_of_mem (Finset.mem_univ j) G (G j + 1)
  have h2 := Finset.sum_update_of_mem (Finset.mem_univ j) G (G j)
  rw [Function.update_eq_self] at h2
  omega

/-- Steps that leave the acting thread's holder status, remaining-iteration
count and completed-operation count alone, and the flag and payload alone,
preserve the invariant. -/
theorem Inv.updatePreserve {f : Nat → Nat} {k : Nat} {v0 : Nat}
    {total : Fin k → Nat} {c : Config k} (hInv : Inv f v0 total c)
    (j : Fin k) (t : TState)
    (hholds : t.pc.holds = ((c.threads j).pc.holds))
    (hrem : t.rem = ((c.threads j).rem))
    (hpos : t.pc ≠ TPC.ready → 1 ≤ t.rem)
    (hdone : TState.doneOps (total j) t = TState.doneOps (total j) (c.threads j))
    (hcrit : ∀ l : Nat, t.pc = TPC.crit1 l → l = c.payload) :
    Inv f v0 total (Config.mk c.flag c.payload (Function.update c.threads j t)) := by
  obtain ⟨excl, flagIff, remLe, remPos, acct, readVal⟩ := hInv
  have hup : ∀ i : Fin k,
      ((Function.update c.threads j t i).pc.holds) = ((c.threads i).pc.holds) := by
    intro i
    by_cases hij : i = j
    · subst hij
      rw [Function.update_same]
      exact hholds
    · rw [Function.update_noteq hij]
  refine ⟨?_, ?_, ?_, ?_, ?_, ?_⟩
  · intro i1 i2 h1 h2
    dsimp only at h1 h2
    rw [hup i1] at h1
    rw [hup i2] at h2
    exact excl i1 i2 h1 h2
  · dsimp only
    constructor
    · intro hf
      obtain ⟨i, hi⟩ := flagIff.mp hf
      exact ⟨i, by rw [hup i]; exact hi⟩
    · rintro ⟨i, hi⟩
      rw [hup i] at hi
      exact flagIff.mpr ⟨i, hi⟩
  · intro i
    dsimp only
    by_cases hij : i = j
    · subst hij
      rw [Function.update_same, hrem]
      exact remLe i
    · rw [Function.update_noteq hij]
      exact remLe i
  · intro i hi
    dsimp only at hi ⊢
    by_cases hij : i = j
    · subst hij
      rw [Function.update_same] at hi ⊢
      exact hpos hi
    · rw [Function.update_noteq hij] at hi ⊢
      exact remPos i hi
  · dsimp only
    rw [doneOps_update total c.threads j t, sum_update_of_eq _ j _ hdone]
    exact acct
  · intro i l hi
    dsimp only at hi ⊢
    by_cases hij : i = j
    · subst hij
      rw [Function.update_same] at hi
      exact hcrit l hi
    · rw [Function.update_noteq hij] at hi
      exact readVal i l hi

/-- Every step of the interleaving model preserves the invariant. -/
theorem Inv.step {f : Nat → Nat} {k : Nat} {v0 : Nat} {total : Fin k → Nat}
    {lbl : Label k} {c c' : Config k} (hInv : Inv f v0 total c)
    (h : Step f lbl c c') : Inv f v0 total c' := by
  cases h with
  | casOk c i r hpc hflag =>
      obtain ⟨excl, flagIff, remLe, remPos, acct, readVal⟩ := hInv
      have noHold : ∀ j : Fin k, ¬ ((c.threads j).pc.holds = true) := by
        intro j hj
        have hft : c.flag = true := flagIff.mpr ⟨j, hj⟩
        rw [hflag] at hft
        simp [UNLOCKED] at hft
      have only_i : ∀ j : Fin k,
          ((Function.update c.threads i (TState.mk TPC.crit0 (r + 1)) j).pc.holds = true) →
            j = i := by
        intro j hj
        by_cases hji : j = i
        · exact hji
        · rw [Function.update_noteq hji] at hj
          exact absurd hj (noHold j)
      refine ⟨?_, ?_, ?_, ?_, ?_, ?_⟩
      · intro i1 i2 h1 h2
        exact (only_i i1 h1).trans (only_i i2 h2).symm
      · constructor
        · intro _
          refine ⟨i, ?_⟩
          dsimp only
          rw [Function.update_same]
          rfl
        · intro _
          rfl
      · intro j
        dsimp only
        by_cases hji : j = i
        · subst hji
          rw [Function.update_same]
          have hle := remLe j
          rw [hpc] at hle
          exact hle
        · rw [Function.update_noteq hji]
          exact remLe j
      · intro j hj
        dsimp only at hj ⊢
        by_cases hji : j = i
        · subst hji
          rw [Function.update_same]
          exact Nat.succ_le_succ (Nat.zero_le r)
        · rw [Function.update_noteq hji] at hj ⊢
          exact remPos j hj
      · dsimp only
        have hdone : TState.doneOps (total i) (TState.mk TPC.crit0 (r + 1)) =
            TState.doneOps (total i) (c.threads i) := by
          rw [hpc]
          rfl
        rw [doneOps_update total c.threads i _, sum_update_of_eq _ i _ hdone]
        exact acct
      · intro j l hj
        dsimp only at hj ⊢
        by_cases hji : j = i
        · subst hji
          rw [Function.update_same] at hj
          simp at hj
        · rw [Function.update_noteq hji] at hj
          exact readVal j l hj
  | casFail c i r hpc hflag =>
      refine hInv.updatePreserve i (TState.mk TPC.spin (r + 1)) ?_ ?_ ?_ ?_ ?_
      · rw [hpc]
        rfl
      · rw [hpc]
      · intro _
        exact Nat.succ_le_succ (Nat.zero_le r)
      · rw [hpc]
        rfl
      · intro l hl
        simp at hl
  | loadLocked c i r hpc hflag =>
      exact hInv
  | loadUnlocked c i r hpc hflag =>
      refine hInv.updatePreserve i (TState.mk TPC.ready r) ?_ ?_ ?_ ?_ ?_
      · rw [hpc]
        rfl
      · rw [hpc]
      · intro hne
        exact absurd rfl hne
      · rw [hpc]
        rfl
      · intro l hl
        simp at hl
  | readPayload c i r hpc =>
      refine hInv.updatePreserve i (TState.mk (TPC.crit1 c.payload) r) ?_ ?_ ?_ ?_ ?_
      · rw [hpc]
        rfl
      · rw [hpc]
      · intro _
        have hp := hInv.remPos i (by rw [hpc]; simp)
        rw [hpc] at hp
        exact hp
      · rw [hpc]
        rfl
      · intro l hl
        injection hl with h1
        exact h1.symm
  | writePayload c i r l hpc =>
      obtain ⟨excl, flagIff, remLe, remPos, acct, readVal⟩ := hInv
      have hholdi : (c.threads i).pc.holds = true := by rw [hpc]; rfl
      have hlpay : l = c.payload := readVal i l (by rw [hpc])
      have hup : ∀ j : Fin k,
          ((Function.update c.threads i (TState.mk TPC.rel r) j).pc.holds) =
            ((c.threads j).pc.holds) := by
        intro j
        by_cases hji : j = i
        · subst hji
          rw [Function.update_same, hpc]
          rfl
        · rw [Function.update_noteq hji]
      refine ⟨?_, ?_, ?_, ?_, ?_, ?_⟩
      · intro i1 i2 h1 h2
        dsimp only at h1 h2
        rw [hup i1] at h1
        rw [hup i2] at h2
        exact excl i1 i2 h1 h2
      · dsimp only
        constructor
        · intro hf
          obtain ⟨j, hj⟩ := flagIff.mp hf
          exact ⟨j, by rw [hup j]; exact hj⟩
        · rintro ⟨j, hj⟩
          rw [hup j] at hj
          exact flagIff.mpr ⟨j, hj⟩
      · intro j
        dsimp only
        by_cases hji : j = i
        · subst hji
          rw [Function.update_same]
          have hle := remLe j
          rw [hpc] at hle
          exact hle
        · rw [Function.update_noteq hji]
          exact remLe j
      · intro j hj
        dsimp only at hj ⊢
        by_cases hji : j = i
        · subst hji
          rw [Function.update_same] at hj ⊢
          have hp := remPos j (by rw [hpc]; simp)
          rw [hpc] at hp
          exact hp
        · rw [Function.update_noteq hji] at hj ⊢
          exact remPos j hj
      · dsimp only
        have hplus : TState.doneOps (total i) (TState.mk TPC.rel r) =
            TState.doneOps (total i) (c.threads i) + 1 := by
          rw [hpc]
          simp [TState.doneOps]
        rw [doneOps_update total c.threads i _, sum_update_succ _ i _ hplus,
          Function.iterate_succ_apply', ← acct, hlpay]
      · intro j l2 hj
        dsimp only at hj
        by_cases hji : j = i
        · subst hji
          rw [Function.update_same] at hj
          simp at hj
        · rw [Function.update_noteq hji] at hj
          have hhj : (c.threads j).pc.holds = true := by rw [hj]; rfl
          exact absurd (excl j i hhj hholdi) hji
  | unlockStore c i r hpc =>
      obtain ⟨excl, flagIff, remLe, remPos, acct, readVal⟩ := hInv
      have hholdi : (c.threads i).pc.holds = true := by rw [hpc]; rfl
      have noOther : ∀ j : Fin k, j ≠ i → ((c.threads j).pc.holds) = false := by
        intro j hji
        cases hb : (c.threads j).pc.holds with
        | false => rfl
        | true => exact absurd (excl j i hb hholdi) hji
      have noHoldAfter : ∀ j : Fin k,
          ((Function.update c.threads i (TState.mk TPC.ready r) j).pc.holds) = false := by
        intro j
        by_cases hji : j = i
        · subst hji
          rw [Function.update_same]
          rfl
        · rw [Function.update_noteq hji]
          exact noOther j hji
      refine ⟨?_, ?_, ?_, ?_, ?_, ?_⟩
      · intro i1 i2 h1 h2
        dsimp only at h1
        rw [noHoldAfter i1] at h1
        exact absurd h1 (by simp)
      · dsimp only
        constructor
        · intro hf
          simp [UNLOCKED] at hf
        · rintro ⟨j, hj⟩
          rw [noHoldAfter j] at hj
          exact absurd hj (by simp)
      · intro j
        dsimp only
        by_cases hji : j = i
        · subst hji
          rw [Function.update_same]
          have hle := remLe j
          rw [hpc] at hle
          dsimp at hle
          show r ≤ total j
          omega
        · rw [Function.update_noteq hji]
          exact remLe j
      · intro j hj
        dsimp only at hj ⊢
        by_cases hji : j = i
        · subst hji
          rw [Function.update_same] at hj
          exact absurd rfl hj
        · rw [Function.update_noteq hji] at hj ⊢
          exact remPos j hj
      · dsimp only
        have hle := remLe i
        rw [hpc] at hle
        dsimp at hle
        have hdone : TState.doneOps (total i) (TState.mk TPC.ready r) =
            TState.doneOps (total i) (c.threads i) := by
          rw [hpc]
          show total i - r + 0 = total i - (r + 1) + 1
          omega
        rw [doneOps_update total c.threads i _, sum_update_of_eq _ i _ hdone]
        exact acct
      · intro j l hj
        dsimp only at hj
        by_cases hji : j = i
        · subst hji
          rw [Function.update_same] at hj
          simp at hj
        · rw [Function.update_noteq hji] at hj
          exact readVal j l hj

/-- The invariant holds in every configuration reachable from the initial
one. -/
theorem inv_reachable {f : Nat → Nat} {k : Nat} {v0 : Nat} {total : Fin k → Nat}
    {c : Config k} (h : Steps f (initConfig v0 total) c) : Inv f v0 total c := by
  induction h with
  | refl => exact inv_init f v0 total
  | tail _ hstep ih =>
      obtain ⟨lbl, hlbl⟩ := hstep
      exact ih.step hlbl

theorem iterate_add_one (m v0 : Nat) : (fun v => v + 1)^[m] v0 = v0 + m := by
  induction m with
  | zero => rfl
  | succ n ih =>
      rw [Function.iterate_succ_apply', ih]
      omega

/-- Claim C1: mutual exclusion with no lost updates — for any number of
threads, thread `i` performing `total i` increments (`with_lock(|v| *v += 1)`)
on a mutex constructed with initial value `0`, any interleaved execution in
which every thread has completed all its iterations (all threads joined)
leaves the payload equal to the sum of all increments; in particular 100
threads of 10,000 increments each leave exactly `1,000,000`. -/
theorem withLock_no_lost_updates {k : Nat} (total : Fin k → Nat) (c : Config k)
    (hexec : Steps (fun v => v + 1) (initConfig 0 total) c)
    (hdone : ∀ i : Fin k, c.threads i = TState.mk TPC.ready 0) :
    c.payload = ∑ i : Fin k, total i := by
  have hInv := inv_reachable hexec
  have hsum : (∑ i : Fin k, TState.doneOps (total i) (c.threads i)) =
      ∑ i : Fin k, total i := by
    refine Finset.sum_congr rfl ?_
    intro i _
    rw [hdone i]
    show (total i - 0) + 0 = total i
    omega
  rw [hInv.acct, hsum, iterate_add_one]
  omega

/-!
A concrete solo execution: one thread, one iteration, used as a witness
run.  `solo0 v` is the initial configuration with payload `v`; `solo1` …
`solo4` are the configurations after the successful exchange, the payload
read, the payload write, and the releasing store.
-/

def solo0 (v : Nat) : Config 1 :=
  Config.mk UNLOCKED v (fun _ => TState.mk TPC.ready 1)

def solo1 (v : Nat) : Config 1 :=
  Config.mk LOCKED v (Function.update (solo0 v).threads 0 (TState.mk TPC.crit0 1))

def solo2 (v : Nat) : Config 1 :=
  Config.mk LOCKED v
    (Function.update (solo1 v).threads 0 (TState.mk (TPC.crit1 v) 1))

def solo3 (f : Nat → Nat) (v : Nat) : Config 1 :=
  Config.mk LOCKED (f v)
    (Function.update (solo2 v).threads 0 (TState.mk TPC.rel 1))

def solo4 (f : Nat → Nat) (v : Nat) : Config 1 :=
  Config.mk UNLOCKED (f v)
    (Function.update (solo3 f v).threads 0 (TState.mk TPC.ready 0))

theorem solo0_threads (v : Nat) : (solo0 v).threads 0 = TState.mk TPC.ready 1 := rfl

theorem solo1_threads (v : Nat) : (solo1 v).threads 0 = TState.mk TPC.crit0 1 := by
  simp [solo1, Function.update]

theorem solo2_threads (v : Nat) :
    (solo2 v).threads 0 = TState.mk (TPC.crit1 v) 1 := by
  simp [solo2, Function.update]

theorem solo3_threads (f : Nat → Nat) (v : Nat) :
    (solo3 f v).threads 0 = TState.mk TPC.rel 1 := by
  simp [solo3, Function.update]

theorem solo4_threads (f : Nat → Nat) (v : Nat) :
    (solo4 f v).threads 0 = TState.mk TPC.ready 0 := by
  simp [solo4, Function.update]

theorem step_solo0 (f : Nat → Nat) (v : Nat) :
    Step f (Label.cas 0 true) (solo0 v) (solo1 v) :=
  Step.casOk (solo0 v) 0 0 rfl rfl

theorem step_solo1 (f : Nat → Nat) (v : Nat) :
    Step f (Label.readP 0) (solo1 v) (solo2 v) :=
  Step.readPayload (solo1 v) 0 1 (solo1_threads v)

theorem step_solo2 (f : Nat → Nat) (v : Nat) :
    Step f (Label.writeP 0) (solo2 v) (solo3 f v) :=
  Step.writePayload (solo2 v) 0 1 v (solo2_threads v)

theorem step_solo3 (f : Nat → Nat) (v : Nat) :
    Step f (Label.unlock 0) (solo3 f v) (solo4 f v) :=
  Step.unlockStore (solo3 f v) 0 0 (solo3_threads f v)

theorem solo_exec (f : Nat → Nat) (v : Nat) : Steps f (solo0 v) (solo4 f v) := by
  refine Relation.ReflTransGen.head ⟨_, step_solo0 f v⟩ ?_
  refine Relation.ReflTransGen.head ⟨_, step_solo1 f v⟩ ?_
  refine Relation.ReflTransGen.head ⟨_, step_solo2 f v⟩ ?_
  exact Relation.ReflTransGen.single ⟨_, step_solo3 f v⟩

/-- Claim C1, witness: one thread performing one increment from initial
payload `0` ends with payload `∑ i : Fin 1, 1 = 1`. -/
theorem withLock_no_lost_updates_witness :
    (solo4 (fun v => v + 1) 0).payload = ∑ i : Fin 1, (fun _ => 1 : Fin 1 → Nat) i := by
  refine withLock_no_lost_updates (fun _ => 1) (solo4 (fun v => v + 1) 0) ?_ ?_
  · exact solo_exec (fun v => v + 1) 0
  · intro i
    have hi0 : i = 0 := Subsingleton.elim i 0
    subst hi0
    exact solo4_threads (fun v => v + 1) 0

/-- Claim C8: the lock flag is a two-state machine starting `UNLOCKED`; along
any reachable execution, every step either leaves the flag unchanged, or is
the successful compare-exchange taking `UNLOCKED` to `LOCKED`, or is the
releasing store taking `LOCKED` to `UNLOCKED`; and neither flag state is
terminal — from each of them a step changing it exists. -/
theorem flag_two_state_machine {k : Nat} (f : Nat → Nat) (v0 : Nat)
    (total : Fin k → Nat) (lbl : Label k) (c c' : Config k)
    (hreach : Steps f (initConfig v0 total) c)
    (h : Step f lbl c c') :
    (initConfig v0 total).flag = UNLOCKED ∧
    (c'.flag = c.flag ∨
      (c.flag = UNLOCKED ∧ c'.flag = LOCKED ∧ ∃ i : Fin k, lbl = Label.cas i true) ∨
      (c.flag = LOCKED ∧ c'.flag = UNLOCKED ∧ ∃ i : Fin k, lbl = Label.unlock i)) ∧
    (∃ d d' : Config 1, Step f (Label.cas 0 true) d d' ∧
      d.flag = UNLOCKED ∧ d'.flag = LOCKED) ∧
    (∃ e e' : Config 1, Step f (Label.unlock 0) e e' ∧
      e.flag = LOCKED ∧ e'.flag = UNLOCKED) := by
  refine ⟨rfl, ?_, ?_, ?_⟩
  · cases h with
    | casOk c i r hpc hflag =>
        exact Or.inr (Or.inl ⟨hflag, rfl, ⟨i, rfl⟩⟩)
    | casFail c i r hpc hflag =>
        exact Or.inl rfl
    | loadLocked c i r hpc hflag =>
        exact Or.inl rfl
    | loadUnlocked c i r hpc hflag =>
        exact Or.inl rfl
    | readPayload c i r hpc =>
        exact Or.inl rfl
    | writePayload c i r l hpc =>
        exact Or.inl rfl
    | unlockStore c i r hpc =>
        have hInv := inv_reachable hreach
        have hhold : (c.threads i).pc.holds = true := by
          rw [hpc]
          rfl
        have hflag : c.flag = true := hInv.flagIff.mpr ⟨i, hhold⟩
        exact Or.inr (Or.inr ⟨hflag, rfl, ⟨i, rfl⟩⟩)
  · exact ⟨solo0 0, solo1 0, step_solo0 f 0, rfl, rfl⟩
  · exact ⟨solo3 f 0, solo4 f 0, step_solo3 f 0, rfl, rfl⟩

/-- Claim C8, witness: instantiated at the successful exchange step of the
one-thread run. -/
theorem flag_two_state_machine_witness :
    (initConfig 0 (fun _ : Fin 1 => 1)).flag = UNLOCKED ∧
    ((solo1 0).flag = (solo0 0).flag ∨
      ((solo0 0).flag = UNLOCKED ∧ (solo1 0).flag = LOCKED ∧
        ∃ i : Fin 1, Label.cas (0 : Fin 1) true = Label.cas i true) ∨
      ((solo0 0).flag = LOCKED ∧ (solo1 0).flag = UNLOCKED ∧
        ∃ i : Fin 1, Label.cas (0 : Fin 1) true = Label.unlock i)) ∧
    (∃ d d' : Config 1, Step (fun v => v + 1) (Label.cas 0 true) d d' ∧
      d.flag = UNLOCKED ∧ d'.flag = LOCKED) ∧
    (∃ e e' : Config 1, Step (fun v => v + 1) (Label.unlock 0) e e' ∧
      e.flag = LOCKED ∧ e'.flag = UNLOCKED) :=
  flag_two_state_machine (fun v => v + 1) 0 (fun _ : Fin 1 => 1)
    (Label.cas 0 true) (solo0 0) (solo1 0)
    Relation.ReflTransGen.refl (step_solo0 (fun v => v + 1) 0)

/-- Claim C9: the payload is dereferenced (read at atomic.rs:67, or written
by the closure) only between the successful compare-exchange and the
releasing store: whenever a reachable configuration admits a payload read or
write by thread `i`, the flag holds `LOCKED` and thread `i` is inside the
critical section; no code path reaches the payload dereference while the flag
is `UNLOCKED`. -/
theorem payload_access_only_when_locked {k : Nat} (f : Nat → Nat) (v0 : Nat)
    (total : Fin k → Nat) (c c' : Config k) (lbl : Label k) (i : Fin k)
    (hreach : Steps f (initConfig v0 total) c)
    (hstep : Step f lbl c c')
    (hacc : lbl = Label.readP i ∨ lbl = Label.writeP i) :
    c.flag = LOCKED ∧ (c.threads i).pc.holds = true := by
  have hInv := inv_reachable hreach
  have hhold : (c.threads i).pc.holds = true := by
    rcases hacc with hre | hwr
    · subst hre
      cases hstep with
      | readPayload c i r hpc =>
          rw [hpc]
          rfl
    · subst hwr
      cases hstep with
      | writePayload c i r l hpc =>
          rw [hpc]
          rfl
  exact ⟨hInv.flagIff.mpr ⟨i, hhold⟩, hhold⟩

/-- Claim C9, witness: at the configuration after the successful exchange of
the one-thread run, the pending payload read finds the flag `LOCKED`. -/
theorem payload_access_only_when_locked_witness :
    (solo1 0).flag = LOCKED ∧ ((solo1 0).threads 0).pc.holds = true :=
  payload_access_only_when_locked (fun v => v + 1) 0 (fun _ : Fin 1 => 1)
    (solo1 0) (solo2 0) (Label.readP 0) 0
    (Relation.ReflTransGen.single ⟨Label.cas 0 true, step_solo0 (fun v => v + 1) 0⟩)
    (step_solo1 (fun v => v + 1) 0) (Or.inl rfl)

/-- Claim C5: the acquisition is two-phase test-and-test-and-set — a failed
compare-exchange sends the thread into the load-only spin loop (it does not
re-attempt the exchange immediately); while in the spin loop the thread's
only steps are loads of the flag, staying in the loop on observing `LOCKED`
and leaving for a re-attempt of the exchange only on observing `UNLOCKED`;
and an exchange is only ever attempted from outside the spin loop. -/
theorem ttas_two_phase {k : Nat} (f : Nat → Nat) (lbl : Label k)
    (c c' : Config k) (i : Fin k) (h : Step f lbl c c') :
    (lbl = Label.cas i false → (c'.threads i).pc = TPC.spin) ∧
    ((c.threads i).pc = TPC.spin → lbl.tid = i →
      lbl.isCas = false ∧ ∃ b : Bool, lbl = Label.load i b) ∧
    ((c.threads i).pc = TPC.spin → lbl = Label.load i LOCKED →
      (c'.threads i).pc = TPC.spin) ∧
    ((c.threads i).pc = TPC.spin → lbl = Label.load i UNLOCKED →
      (c'.threads i).pc = TPC.ready) ∧
    (lbl = Label.cas i true → (c.threads i).pc = TPC.ready) := by
  cases h with
  | casOk c0 j r hpc hflag =>
      refine ⟨?_, ?_, ?_, ?_, ?_⟩
      · intro he
        simp at he
      · intro hspin htid
        simp only [Label.tid] at htid
        subst htid
        rw [hpc] at hspin
        simp at hspin
      · intro _ he
        simp at he
      · intro _ he
        simp at he
      · intro he
        injection he with h1 h2
        subst h1
        rw [hpc]
  | casFail c0 j r hpc hflag =>
      refine ⟨?_, ?_, ?_, ?_, ?_⟩
      · intro he
        injection he with h1 h2
        subst h1
        dsimp only
        rw [Function.update_same]
      · intro hspin htid
        simp only [Label.tid] at htid
        subst htid
        rw [hpc] at hspin
        simp at hspin
      · intro _ he
        simp at he
      · intro _ he
        simp at he
      · intro he
        simp at he
  | loadLocked c0 j r hpc hflag =>
      refine ⟨?_, ?_, ?_, ?_, ?_⟩
      · intro he
        simp at he
      · intro hspin htid
        simp only [Label.tid] at htid
        subst htid
        exact ⟨rfl, ⟨LOCKED, rfl⟩⟩
      · intro hspin _
        exact hspin
      · intro _ he
        simp [LOCKED, UNLOCKED] at he
      · intro he
        simp at he
  | loadUnlocked c0 j r hpc hflag =>
      refine ⟨?_, ?_, ?_, ?_, ?_⟩
      · intro he
        simp at he
      · intro hspin htid
        simp only [Label.tid] at htid
        subst htid
        exact ⟨rfl, ⟨UNLOCKED, rfl⟩⟩
      · intro _ he
        simp [LOCKED, UNLOCKED] at he
      · intro _ he
        injection he with h1 h2
        subst h1
        dsimp only
        rw [Function.update_same]
      · intro he
        simp at he
  | readPayload c0 j r hpc =>
      refine ⟨?_, ?_, ?_, ?_, ?_⟩
      · intro he
        simp at he
      · intro hspin htid
        simp only [Label.tid] at htid
        subst htid
        rw [hpc] at hspin
        simp at hspin
      · intro _ he
        simp at he
      · intro _ he
        simp at he
      · intro he
        simp at he
  | writePayload c0 j r l hpc =>
      refine ⟨?_, ?_, ?_, ?_, ?_⟩
      · intro he
        simp at he
      · intro hspin htid
        simp only [Label.tid] at htid
        subst htid
        rw [hpc] at hspin
        simp at hspin
      · intro _ he
        simp at he
      · intro _ he
        simp at he
      · intro he
        simp at he
  | unlockStore c0 j r hpc =>
      refine ⟨?_, ?_, ?_, ?_, ?_⟩
      · intro he
        simp at he
      · intro hspin htid
        simp only [Label.tid] at htid
        subst htid
        rw [hpc] at hspin
        simp at hspin
      · intro _ he
        simp at he
      · intro _ he
        simp at he
      · intro he
        simp at he

/-- A one-thread configuration whose lock is held elsewhere: flag `LOCKED`,
the thread about to attempt the exchange. -/
def lockedReady : Config 1 :=
  Config.mk LOCKED 0 (fun _ => TState.mk TPC.ready 1)

/-- `lockedReady` after the failed exchange: the thread is in the spin loop. -/
def lockedSpin : Config 1 :=
  Config.mk lockedReady.flag lockedReady.payload
    (Function.update lockedReady.threads 0 (TState.mk TPC.spin 1))

theorem step_lockedReady (f : Nat → Nat) :
    Step f (Label.cas 0 false) lockedReady lockedSpin :=
  Step.casFail lockedReady 0 0 rfl rfl

/-- Claim C5, witness: instantiated at the failed exchange on a locked
mutex, which sends the thread into the spin loop. -/
theorem ttas_two_phase_witness :
    (Label.cas (0 : Fin 1) false = Label.cas 0 false →
      (lockedSpin.threads 0).pc = TPC.spin) ∧
    ((lockedReady.threads 0).pc = TPC.spin →
      (Label.cas (0 : Fin 1) false).tid = 0 →
      (Label.cas (0 : Fin 1) false).isCas = false ∧
        ∃ b : Bool, Label.cas (0 : Fin 1) false = Label.load 0 b) ∧
    ((lockedReady.threads 0).pc = TPC.spin →
      Label.cas (0 : Fin 1) false = Label.load 0 LOCKED →
      (lockedSpin.threads 0).pc = TPC.spin) ∧
    ((lockedReady.threads 0).pc = TPC.spin →
      Label.cas (0 : Fin 1) false = Label.load 0 UNLOCKED →
      (lockedSpin.threads 0).pc = TPC.ready) ∧
    (Label.cas (0 : Fin 1) false = Label.cas 0 true →
      (lockedReady.threads 0).pc = TPC.ready) :=
  ttas_two_phase (fun v => v + 1) (Label.cas 0 false) lockedReady lockedSpin 0
    (step_lockedReady (fun v => v + 1))

/-- Claim C6: `with_lock` has no error-return channel (its sequential model
returns the closure's result or never returns — see `Mutex.withLock`); and if
the closure terminates abnormally after the lock was acquired — modelled as
the holding thread `p` never taking another step — the flag stays `LOCKED`
forever: along any continuation by the other threads, the flag is still
`LOCKED`, no other thread ever enters the critical section, and no other
thread completes an iteration (every subsequent `with_lock` call spins
forever). -/
theorem panic_leaves_lock_stuck {k : Nat} (f : Nat → Nat) (p : Fin k)
    (c c' : Config k)
    (hflag : c.flag = LOCKED)
    (hothers : ∀ i : Fin k, i ≠ p → ((c.threads i).pc.holds) = false)
    (hexec : Relation.ReflTransGen (StepNotBy f p) c c') :
    c'.flag = LOCKED ∧
    (∀ i : Fin k, i ≠ p → ((c'.threads i).pc.holds) = false) ∧
    (∀ i : Fin k, i ≠ p → (c'.threads i).rem = (c.threads i).rem) ∧
    c'.threads p = c.threads p := by
  induction hexec with
  | refl => exact ⟨hflag, hothers, fun i _ => rfl, rfl⟩
  | tail hsteps hstep ih =>
      obtain ⟨hf, hoth, hrem, hp⟩ := ih
      obtain ⟨lbl, hlbl, htid⟩ := hstep
      cases hlbl with
      | casOk cmid j r hpc hflagmid =>
          rw [hf] at hflagmid
          simp [LOCKED, UNLOCKED] at hflagmid
      | casFail cmid j r hpc hflagmid =>
          have hjp : j ≠ p := by simpa [Label.tid] using htid
          refine ⟨hf, ?_, ?_, ?_⟩
          · intro i hip
            dsimp only
            by_cases hij : i = j
            · subst hij
              rw [Function.update_same]
              rfl
            · rw [Function.update_noteq hij]
              exact hoth i hip
          · intro i hip
            dsimp only
            by_cases hij : i = j
            · subst hij
              rw [Function.update_same]
              have hri := hrem i hip
              rw [hpc] at hri
              exact hri
            · rw [Function.update_noteq hij]
              exact hrem i hip
          · dsimp only
            rw [Function.update_noteq (Ne.symm hjp)]
            exact hp
      | loadLocked cmid j r hpc hflagmid =>
          exact ⟨hf, hoth, hrem, hp⟩
      | loadUnlocked cmid j r hpc hflagmid =>
          rw [hf] at hflagmid
          simp [LOCKED, UNLOCKED] at hflagmid
      | readPayload cmid j r hpc =>
          have hjp : j ≠ p := by simpa [Label.tid] using htid
          have hcontra := hoth j hjp
          rw [hpc] at hcontra
          simp [TPC.holds] at hcontra
      | writePayload cmid j r l hpc =>
          have hjp : j ≠ p := by simpa [Label.tid] using htid
          have hcontra := hoth j hjp
          rw [hpc] at hcontra
          simp [TPC.holds] at hcontra
      | unlockStore cmid j r hpc =>
          have hjp : j ≠ p := by simpa [Label.tid] using htid
          have hcontra := hoth j hjp
          rw [hpc] at hcontra
          simp [TPC.holds] at hcontra

/-- Two threads, thread 0 stuck inside the critical section (the closure
panicked there), thread 1 about to attempt the exchange. -/
def panicConfig : Config 2 :=
  Config.mk LOCKED 0
    (fun i => if i.val = 0 then TState.mk TPC.crit0 1 else TState.mk TPC.ready 1)

/-- Claim C6, witness: instantiated at `panicConfig` with the empty
continuation. -/
theorem panic_leaves_lock_stuck_witness :
    panicConfig.flag = LOCKED ∧
    (∀ i : Fin 2, i ≠ 0 → ((panicConfig.threads i).pc.holds) = false) ∧
    (∀ i : Fin 2, i ≠ 0 → (panicConfig.threads i).rem = (panicConfig.threads i).rem) ∧
    panicConfig.threads 0 = panicConfig.threads 0 :=
  panic_leaves_lock_stuck (fun v => v + 1) 0 panicConfig panicConfig rfl
    (by decide) Relation.ReflTransGen.refl

/-- Claim C10: the lock is not re-entrant — while the flag is `LOCKED` (the
caller itself holds it and, being blocked inside the closure, never releases
it), an inner `with_lock` on the same mutex can only move between the
exchange attempt and the spin loop: along any sequence of its own steps the
flag stays `LOCKED`, the thread never gets past `ready`/`spin`, and its
compare-exchange can never succeed. -/
theorem withLock_not_reentrant {k : Nat} (f : Nat → Nat) (i : Fin k)
    (c c' : Config k)
    (hflag : c.flag = LOCKED)
    (hpc : (c.threads i).pc = TPC.ready ∨ (c.threads i).pc = TPC.spin)
    (hexec : Relation.ReflTransGen (StepBy f i) c c') :
    c'.flag = LOCKED ∧
    ((c'.threads i).pc = TPC.ready ∨ (c'.threads i).pc = TPC.spin) ∧
    (∀ c2 : Config k, ¬ Step f (Label.cas i true) c' c2) := by
  have main : c'.flag = LOCKED ∧
      ((c'.threads i).pc = TPC.ready ∨ (c'.threads i).pc = TPC.spin) := by
    induction hexec with
    | refl => exact ⟨hflag, hpc⟩
    | tail hsteps hstep ih =>
        obtain ⟨hf, hpcs⟩ := ih
        obtain ⟨lbl, hlbl, htid⟩ := hstep
        cases hlbl with
        | casOk cmid j r hpcj hflagj =>
            rw [hf] at hflagj
            simp [LOCKED, UNLOCKED] at hflagj
        | casFail cmid j r hpcj hflagj =>
            have hji : j = i := by simpa [Label.tid] using htid
            subst hji
            refine ⟨hf, ?_⟩
            dsimp only
            rw [Function.update_same]
            exact Or.inr rfl
        | loadLocked cmid j r hpcj hflagj =>
            exact ⟨hf, hpcs⟩
        | loadUnlocked cmid j r hpcj hflagj =>
            rw [hf] at hflagj
            simp [LOCKED, UNLOCKED] at hflagj
        | readPayload cmid j r hpcj =>
            have hji : j = i := by simpa [Label.tid] using htid
            subst hji
            rw [hpcj] at hpcs
            simp at hpcs
        | writePayload cmid j r l hpcj =>
            have hji : j = i := by simpa [Label.tid] using htid
            subst hji
            rw [hpcj] at hpcs
            simp at hpcs
        | unlockStore cmid j r hpcj =>
            have hji : j = i := by simpa [Label.tid] using htid
            subst hji
            rw [hpcj] at hpcs
            simp at hpcs
  refine ⟨main.1, main.2, ?_⟩
  intro c2 hstep
  cases hstep with
  | casOk c3 j r hpcj hflagj =>
      rw [main.1] at hflagj
      simp [LOCKED, UNLOCKED] at hflagj

/-- Claim C10, witness: after one failed inner exchange on the held lock, the
thread is spinning, the flag is still `LOCKED`, and no successful exchange
step exists. -/
theorem withLock_not_reentrant_witness :
    lockedSpin.flag = LOCKED ∧
    ((lockedSpin.threads 0).pc = TPC.ready ∨ (lockedSpin.threads 0).pc = TPC.spin) ∧
    (∀ c2 : Config 1, ¬ Step (fun v => v + 1) (Label.cas 0 true) lockedSpin c2) :=
  withLock_not_reentrant (fun v => v + 1) 0 lockedReady lockedSpin rfl
    (Or.inl rfl)
    (Relation.ReflTransGen.single
      ⟨Label.cas 0 false, step_lockedReady (fun v => v + 1), rfl⟩)

/-- A finite execution together with the list of atomic accesses it
performs. -/
inductive Trace (f : Nat → Nat) {k : Nat} : Config k → List (Label k) → Config k → Prop where
  | nil (c : Config k) : Trace f c [] c
  | cons {c c1 c2 : Config k} {lbl : Label k} {tr : List (Label k)}
      (h : Step f lbl c c1) (htr : Trace f c1 tr c2) : Trace f c (lbl :: tr) c2

theorem step_from_solo0 {f : Nat → Nat} {v : Nat} {lbl : Label 1} {c' : Config 1}
    (h : Step f lbl (solo0 v) c') : lbl = Label.cas 0 true ∧ c' = solo1 v := by
  cases h with
  | casOk c i r hpc hflag =>
      have hi0 : i = 0 := Subsingleton.elim i 0
      subst hi0
      rw [solo0_threads] at hpc
      have hr : r = 0 := by
        have hrem := congrArg TState.rem hpc
        dsimp at hrem
        omega
      subst hr
      exact ⟨rfl, rfl⟩
  | casFail c i r hpc hflag =>
      simp [solo0, UNLOCKED, LOCKED] at hflag
  | loadLocked c i r hpc hflag =>
      simp [solo0, UNLOCKED, LOCKED] at hflag
  | loadUnlocked c i r hpc hflag =>
      have hi0 : i = 0 := Subsingleton.elim i 0
      subst hi0
      rw [solo0_threads] at hpc
      simp at hpc
  | readPayload c i r hpc =>
      have hi0 : i = 0 := Subsingleton.elim i 0
      subst hi0
      rw [solo0_threads] at hpc
      simp at hpc
  | writePayload c i r l hpc =>
      have hi0 : i = 0 := Subsingleton.elim i 0
      subst hi0
      rw [solo0_threads] at hpc
      simp at hpc
  | unlockStore c i r hpc =>
      have hi0 : i = 0 := Subsingleton.elim i 0
      subst hi0
      rw [solo0_threads] at hpc
      simp at hpc

theorem step_from_solo1 {f : Nat → Nat} {v : Nat} {lbl : Label 1} {c' : Config 1}
    (h : Step f lbl (solo1 v) c') : lbl = Label.readP 0 ∧ c' = solo2 v := by
  cases h with
  | casOk c i r hpc hflag =>
      have hi0 : i = 0 := Subsingleton.elim i 0
      subst hi0
      rw [solo1_threads] at hpc
      simp at hpc
  | casFail c i r hpc hflag =>
      have hi0 : i = 0 := Subsingleton.elim i 0
      subst hi0
      rw [solo1_threads] at hpc
      simp at hpc
  | loadLocked c i r hpc hflag =>
      have hi0 : i = 0 := Subsingleton.elim i 0
      subst hi0
      rw [solo1_threads] at hpc
      simp at hpc
  | loadUnlocked c i r hpc hflag =>
      have hi0 : i = 0 := Subsingleton.elim i 0
      subst hi0
      rw [solo1_threads] at hpc
      simp at hpc
  | readPayload c i r hpc =>
      have hi0 : i = 0 := Subsingleton.elim i 0
      subst hi0
      rw [solo1_threads] at hpc
      have hr : r = 1 := by
        have hrem := congrArg TState.rem hpc
        dsimp at hrem
        omega
      subst hr
      exact ⟨rfl, rfl⟩
  | writePayload c i r l hpc =>
      have hi0 : i = 0 := Subsingleton.elim i 0
      subst hi0
      rw [solo1_threads] at hpc
      simp at hpc
  | unlockStore c i r hpc =>
      have hi0 : i = 0 := Subsingleton.elim i 0
      subst hi0
      rw [solo1_threads] at hpc
      simp at hpc

theorem step_from_solo2 {f : Nat → Nat} {v : Nat} {lbl : Label 1} {c' : Config 1}
    (h : Step f lbl (solo2 v) c') : lbl = Label.writeP 0 ∧ c' = solo3 f v := by
  cases h with
  | casOk c i r hpc hflag =>
      have hi0 : i = 0 := Subsingleton.elim i 0
      subst hi0
      rw [solo2_threads] at hpc
      simp at hpc
  | casFail c i r hpc hflag =>
      have hi0 : i = 0 := Subsingleton.elim i 0
      subst hi0
      rw [solo2_threads] at hpc
      simp at hpc
  | loadLocked c i r hpc hflag =>
      have hi0 : i = 0 := Subsingleton.elim i 0
      subst hi0
      rw [solo2_threads] at hpc
      simp at hpc
  | loadUnlocked c i r hpc hflag =>
      have hi0 : i = 0 := Subsingleton.elim i 0
      subst hi0
      rw [solo2_threads] at hpc
      simp at hpc
  | readPayload c i r hpc =>
      have hi0 : i = 0 := Subsingleton.elim i 0
      subst hi0
      rw [solo2_threads] at hpc
      simp at hpc
  | writePayload c i r l hpc =>
      have hi0 : i = 0 := Subsingleton.elim i 0
      subst hi0
      rw [solo2_threads] at hpc
      have hl : v = l := by
        have hh := congrArg TState.pc hpc
        dsimp at hh
        injection hh
      have hr : r = 1 := by
        have hrem := congrArg TState.rem hpc
        dsimp at hrem
        omega
      subst hl
      subst hr
      exact ⟨rfl, rfl⟩
  | unlockStore c i r hpc =>
      have hi0 : i = 0 := Subsingleton.elim i 0
      subst hi0
      rw [solo2_threads] at hpc
      simp at hpc

theorem step_from_solo3 {f : Nat → Nat} {v : Nat} {lbl : Label 1} {c' : Config 1}
    (h : Step f lbl (solo3 f v) c') : lbl = Label.unlock 0 ∧ c' = solo4 f v := by
  cases h with
  | casOk c i r hpc hflag =>
      have hi0 : i = 0 := Subsingleton.elim i 0
      subst hi0
      rw [solo3_threads] at hpc
      simp at hpc
  | casFail c i r hpc hflag =>
      have hi0 : i = 0 := Subsingleton.elim i 0
      subst hi0
      rw [solo3_threads] at hpc
      simp at hpc
  | loadLocked c i r hpc hflag =>
      have hi0 : i = 0 := Subsingleton.elim i 0
      subst hi0
      rw [solo3_threads] at hpc
      simp at hpc
  | loadUnlocked c i r hpc hflag =>
      have hi0 : i = 0 := Subsingleton.elim i 0
      subst hi0
      rw [solo3_threads] at hpc
      simp at hpc
  | readPayload c i r hpc =>
      have hi0 : i = 0 := Subsingleton.elim i 0
      subst hi0
      rw [solo3_threads] at hpc
      simp at hpc
  | writePayload c i r l hpc =>
      have hi0 : i = 0 := Subsingleton.elim i 0
      subst hi0
      rw [solo3_threads] at hpc
      simp at hpc
  | unlockStore c i r hpc =>
      have hi0 : i = 0 := Subsingleton.elim i 0
      subst hi0
      rw [solo3_threads] at hpc
      have hr : r = 0 := by
        have hrem := congrArg TState.rem hpc
        dsimp at hrem
        omega
      subst hr
      exact ⟨rfl, rfl⟩

theorem no_step_from_solo4 {f : Nat → Nat} {v : Nat} {lbl : Label 1} {c' : Config 1}
    (h : Step f lbl (solo4 f v) c') : False := by
  cases h with
  | casOk c i r hpc hflag =>
      have hi0 : i = 0 := Subsingleton.elim i 0
      subst hi0
      rw [solo4_threads] at hpc
      have hrem := congrArg TState.rem hpc
      dsimp at hrem
      omega
  | casFail c i r hpc hflag =>
      simp [solo4, UNLOCKED, LOCKED] at hflag
  | loadLocked c i r hpc hflag =>
      simp [solo4, UNLOCKED, LOCKED] at hflag
  | loadUnlocked c i r hpc hflag =>
      have hi0 : i = 0 := Subsingleton.elim i 0
      subst hi0
      rw [solo4_threads] at hpc
      simp at hpc
  | readPayload c i r hpc =>
      have hi0 : i = 0 := Subsingleton.elim i 0
      subst hi0
      rw [solo4_threads] at hpc
      simp at hpc
  | writePayload c i r l hpc =>
      have hi0 : i = 0 := Subsingleton.elim i 0
      subst hi0
      rw [solo4_threads] at hpc
      simp at hpc
  | unlockStore c i r hpc =>
      have hi0 : i = 0 := Subsingleton.elim i 0
      subst hi0
      rw [solo4_threads] at hpc
      simp at hpc

theorem trace_from_solo4 {f : Nat → Nat} {v : Nat} {tr : List (Label 1)}
    {c' : Config 1} (h : Trace f (solo4 f v) tr c') :
    tr = [] ∧ c' = solo4 f v := by
  cases h with
  | nil => exact ⟨rfl, rfl⟩
  | cons hstep htr => exact (no_step_from_solo4 hstep).elim

theorem trace_from_solo3 {f : Nat → Nat} {v : Nat} {tr : List (Label 1)}
    {c' : Config 1} (h : Trace f (solo3 f v) tr c') :
    (tr = [] ∧ c' = solo3 f v) ∨
    (tr = [Label.unlock 0] ∧ c' = solo4 f v) := by
  cases h with
  | nil => exact Or.inl ⟨rfl, rfl⟩
  | cons hstep htr =>
      obtain ⟨hl, hc⟩ := step_from_solo3 hstep
      subst hl
      subst hc
      obtain ⟨ht, hc'⟩ := trace_from_solo4 htr
      subst ht
      subst hc'
      exact Or.inr ⟨rfl, rfl⟩

theorem trace_from_solo2 {f : Nat → Nat} {v : Nat} {tr : List (Label 1)}
    {c' : Config 1} (h : Trace f (solo2 v) tr c') :
    (tr = [] ∧ c' = solo2 v) ∨
    (tr = [Label.writeP 0] ∧ c' = solo3 f v) ∨
    (tr = [Label.writeP 0, Label.unlock 0] ∧ c' = solo4 f v) := by
  cases h with
  | nil => exact Or.inl ⟨rfl, rfl⟩
  | cons hstep htr =>
      obtain ⟨hl, hc⟩ := step_from_solo2 hstep
      subst hl
      subst hc
      rcases trace_from_solo3 htr with ⟨ht, hc'⟩ | ⟨ht, hc'⟩ <;>
        (subst ht; subst hc')
      · exact Or.inr (Or.inl ⟨rfl, rfl⟩)
      · exact Or.inr (Or.inr ⟨rfl, rfl⟩)

theorem trace_from_solo1 {f : Nat → Nat} {v : Nat} {tr : List (Label 1)}
    {c' : Config 1} (h : Trace f (solo1 v) tr c') :
    (tr = [] ∧ c' = solo1 v) ∨
    (tr = [Label.readP 0] ∧ c' = solo2 v) ∨
    (tr = [Label.readP 0, Label.writeP 0] ∧ c' = solo3 f v) ∨
    (tr = [Label.readP 0, Label.writeP 0, Label.unlock 0] ∧ c' = solo4 f v) := by
  cases h with
  | nil => exact Or.inl ⟨rfl, rfl⟩
  | cons hstep htr =>
      obtain ⟨hl, hc⟩ := step_from_solo1 hstep
      subst hl
      subst hc
      rcases trace_from_solo2 htr with ⟨ht, hc'⟩ | ⟨ht, hc'⟩ | ⟨ht, hc'⟩ <;>
        (subst ht; subst hc')
      · exact Or.inr (Or.inl ⟨rfl, rfl⟩)
      · exact Or.inr (Or.inr (Or.inl ⟨rfl, rfl⟩))
      · exact Or.inr (Or.inr (Or.inr ⟨rfl, rfl⟩))

theorem trace_from_solo0 {f : Nat → Nat} {v : Nat} {tr : List (Label 1)}
    {c' : Config 1} (h : Trace f (solo0 v) tr c') :
    (tr = [] ∧ c' = solo0 v) ∨
    (tr = [Label.cas 0 true] ∧ c' = solo1 v) ∨
    (tr = [Label.cas 0 true, Label.readP 0] ∧ c' = solo2 v) ∨
    (tr = [Label.cas 0 true, Label.readP 0, Label.writeP 0] ∧ c' = solo3 f v) ∨
    (tr = [Label.cas 0 true, Label.readP 0, Label.writeP 0, Label.unlock 0] ∧
      c' = solo4 f v) := by
  cases h with
  | nil => exact Or.inl ⟨rfl, rfl⟩
  | cons hstep htr =>
      obtain ⟨hl, hc⟩ := step_from_solo0 hstep
      subst hl
      subst hc
      rcases trace_from_solo1 htr with ⟨ht, hc'⟩ | ⟨ht, hc'⟩ | ⟨ht, hc'⟩ | ⟨ht, hc'⟩ <;>
        (subst ht; subst hc')
      · exact Or.inr (Or.inl ⟨rfl, rfl⟩)
      · exact Or.inr (Or.inr (Or.inl ⟨rfl, rfl⟩))
      · exact Or.inr (Or.inr (Or.inr (Or.inl ⟨rfl, rfl⟩)))
      · exact Or.inr (Or.inr (Or.inr (Or.inr ⟨rfl, rfl⟩)))

/-- Claim C7: zero-contention boundary — a single thread calling `with_lock`
once on an `UNLOCKED` mutex with no other thread acting performs exactly the
access sequence successful-exchange, payload read, payload write, releasing
store: the very first compare-exchange attempt succeeds, exactly one
exchange attempt occurs in the whole acquire/release cycle, and the spin
loop body is never entered (zero spin loads). -/
theorem zero_contention_one_exchange (f : Nat → Nat) (v : Nat)
    (tr : List (Label 1)) (c : Config 1)
    (htr : Trace f (solo0 v) tr c)
    (hdone : c.threads 0 = TState.mk TPC.ready 0) :
    tr = [Label.cas 0 true, Label.readP 0, Label.writeP 0, Label.unlock 0] ∧
    tr.countP (fun l => l.isCas) = 1 ∧
    tr.countP (fun l => l.isSpinLoad) = 0 := by
  rcases trace_from_solo0 htr with ⟨ht, hc⟩ | ⟨ht, hc⟩ | ⟨ht, hc⟩ | ⟨ht, hc⟩ | ⟨ht, hc⟩
  · subst hc
    rw [solo0_threads] at hdone
    simp at hdone
  · subst hc
    rw [solo1_threads] at hdone
    simp at hdone
  · subst hc
    rw [solo2_threads] at hdone
    simp at hdone
  · subst hc
    rw [solo3_threads] at hdone
    simp at hdone
  · subst ht
    exact ⟨rfl, rfl, rfl⟩

/-- The complete solo run as a labeled trace. -/
theorem solo_trace (f : Nat → Nat) (v : Nat) :
    Trace f (solo0 v)
      [Label.cas 0 true, Label.readP 0, Label.writeP 0, Label.unlock 0]
      (solo4 f v) :=
  Trace.cons (step_solo0 f v) (Trace.cons (step_solo1 f v)
    (Trace.cons (step_solo2 f v) (Trace.cons (step_solo3 f v)
      (Trace.nil (solo4 f v)))))

/-- Claim C7, witness: the solo increment run from payload `0` has exactly
this trace, with one exchange attempt and no spin-loop load. -/
theorem zero_contention_one_exchange_witness :
    ([Label.cas 0 true, Label.readP 0, Label.writeP 0, Label.unlock 0] :
        List (Label 1)) =
      [Label.cas 0 true, Label.readP 0, Label.writeP 0, Label.unlock 0] ∧
    ([Label.cas 0 true, Label.readP 0, Label.writeP 0, Label.unlock 0] :
        List (Label 1)).countP (fun l => l.isCas) = 1 ∧
    ([Label.cas 0 true, Label.readP 0, Label.writeP 0, Label.unlock 0] :
        List (Label 1)).countP (fun l => l.isSpinLoad) = 0 :=
  zero_contention_one_exchange (fun v => v + 1) 0
    [Label.cas 0 true, Label.readP 0, Label.writeP 0, Label.unlock 0]
    (solo4 (fun v => v + 1) 0)
    (solo_trace (fun v => v + 1) 0)
    (solo4_threads (fun v => v + 1) 0)

end SpinAtomic
